import Mathlib

/-!
# Verification of the PremiumCoffee catalog backend

Shallow embedding of the server's core logic (`server.js` and its variants):
the spreadsheet row-to-record normalization, the price parser, the product
cache, the filesystem-watch callback, the broadcast fan-out, the image
listing, and the image proxy handler.  JavaScript strings are modelled as
Lean `String`/`List Char`, JavaScript numbers as `Rat` (exact rationals; the
decimal strings appearing here are represented exactly), and fallible code
as explicit results.  Each definition is translated directly from the
corresponding source function.
-/

namespace PremiumCoffee

/-! ## JavaScript string primitives -/

/-- Whitespace characters removed by JavaScript `String.prototype.trim`
(the ASCII ones; the inputs of interest contain no exotic whitespace). -/
def isWs (c : Char) : Bool :=
  c == ' ' || c == '\t' || c == '\n' || c == '\r'

/-- `String.prototype.trim` on a character list: drop leading and trailing
whitespace. -/
def jsTrim (cs : List Char) : List Char :=
  ((cs.dropWhile isWs).reverse.dropWhile isWs).reverse

/-- `trim()` on a `String`. -/
def strTrim (s : String) : String :=
  String.mk (jsTrim s.toList)

/-- Characters kept by the price regex `[^\d.,\-]` replacement in
`fetchProductsFromSheet`: digits, period, comma, minus. -/
def isPriceChar (c : Char) : Bool :=
  c.isDigit || c == '.' || c == ',' || c == '-'

/-- JavaScript `s.replace(",", ".")`: replaces only the FIRST occurrence of
the comma (a string pattern, not a global regex). -/
def replaceFirstComma : List Char → List Char
  | [] => []
  | c :: cs => if c == ',' then '.' :: cs else c :: replaceFirstComma cs

/-- A single comma turned into a period; identity elsewhere. -/
def commaToDot (c : Char) : Char :=
  if c == ',' then '.' else c

/-- Replacing EVERY comma (what `s.replace(/,/g, ".")` would do); used to
compare the source's first-occurrence replacement against the spec's
wording. -/
def replaceAllCommas (cs : List Char) : List Char :=
  cs.map commaToDot

/-- Numeric value of a digit string (most significant first). -/
def digitsToNat (cs : List Char) : Nat :=
  cs.foldl (fun a c => 10 * a + (c.toNat - 48)) 0

/-- The integer part: the leading digit run (after an optional sign has
been removed). -/
def intPart (rest : List Char) : List Char :=
  rest.takeWhile Char.isDigit

/-- The fraction digits: the digit run right after the `.` that follows the
integer part, empty when no `.` follows it. -/
def fracPart (rest : List Char) : List Char :=
  let r1 := rest.dropWhile Char.isDigit
  if r1.head? = some '.' then r1.tail.takeWhile Char.isDigit else []

/-- The unsigned decimal prefix as a numerator/denominator pair:
`intPart.fracPart` is worth `(ip * 10^k + fp) / 10^k`; `none` when neither
part has a digit (JS `NaN`). -/
def parseDec (rest : List Char) : Option (Nat × Nat) :=
  let ip := intPart rest
  let fp := fracPart rest
  if ip.isEmpty && fp.isEmpty then none
  else some (digitsToNat ip * 10 ^ fp.length + digitsToNat fp, 10 ^ fp.length)

/-- Model of JavaScript `parseFloat` restricted to the character set the
price pipeline can produce (digits, `.`, `,`, `-`): parse the longest valid
decimal prefix — an optional leading minus, then `intPart`/`fracPart`;
`none` when no digit is consumed (JS `NaN`).  Values are exact rationals,
built with `mkRat` so that concrete runs reduce. -/
def parseFloatQ (cs : List Char) : Option Rat :=
  if cs.head? = some '-' then (parseDec cs.tail).map fun p => mkRat (-(p.1 : Int)) p.2
  else (parseDec cs).map fun p => mkRat (p.1 : Int) p.2

/-- JavaScript `x || 0` applied to a parse result: `NaN` (here `none`) and
`0` (and `-0`) collapse to `0`. -/
def jsOr0 : Option Rat → Rat
  | none => 0
  | some v => if v = 0 then 0 else v

/-! ## Spreadsheet row normalization (`fetchProductsFromSheet`) -/

/-- A spreadsheet cell as delivered by the Sheets API with
`UNFORMATTED_VALUE`: a string, a number, a boolean, or absent
(`null`/`undefined`, including a missing column in the destructuring). -/
inductive Cell where
  | str (s : String)
  | num (q : Rat)
  | bool (b : Bool)
  | null
  deriving DecidableEq

/-- The `toStr` helper: `null`/`undefined` become `""`, strings pass
through, anything else is `String(v)`.  Number rendering uses `Rat`'s
printer; no theorem below depends on its exact digits, only on the shape of
the record fields. -/
def toStr : Cell → String
  | .str s => s
  | .num q => toString q
  | .bool b => if b then "true" else "false"
  | .null => ""

/-- The cleaned price string: `trim`, strip everything outside
`[\d.,\-]`, then `replace(",", ".")`. -/
def cleanedPrice (s : String) : List Char :=
  replaceFirstComma ((jsTrim s.toList).filter isPriceChar)

/-- The price branch of the row mapper: numbers pass through as-is; strings
(and stringified non-null values) go through the clean-and-parse pipeline
with `|| 0`; `null`/`undefined` leave the initial `0`. -/
def priceOfCell : Cell → Rat
  | .num q => q
  | .str s => jsOr0 (parseFloatQ (cleanedPrice s))
  | .bool b => jsOr0 (parseFloatQ (cleanedPrice (toStr (.bool b))))
  | .null => 0

/-- The price pipeline in the spec's own words, for comparison with the
source's `priceOfCell` string branch: "strip every character that is not a
digit, comma, period, or minus sign, then replace comma with period, then
parse as float; unparsable → 0" — read with EVERY comma replaced.  (The
spec does not mention the source's leading `trim()`; stripping subsumes
it, which is proved, not assumed.) -/
def specPriceString (s : String) : Rat :=
  jsOr0 (parseFloatQ (replaceAllCommas (s.toList.filter isPriceChar)))

/-- The normalized product record `{ image, name, price, description }`. -/
structure ProductRecord where
  image : String
  name : String
  price : Rat
  description : String
  deriving DecidableEq

/-- Array destructuring `const [a, b, c, d] = r`: a missing element is
`undefined`. -/
def cellAt (r : List Cell) (i : Nat) : Cell :=
  r.getD i .null

/-- The row mapper body: image/name/description via `toStr(...).trim()`,
price via the robust price branch. -/
def toRecord (r : List Cell) : ProductRecord :=
  { image := strTrim (toStr (cellAt r 0))
    name := strTrim (toStr (cellAt r 1))
    price := priceOfCell (cellAt r 2)
    description := strTrim (toStr (cellAt r 3)) }

/-- The filter `p => p.name || p.image || p.description`: a record is kept
iff at least one of the three string fields is non-empty (JS string
truthiness). -/
def rowKept (p : ProductRecord) : Bool :=
  p.name != "" || p.image != "" || p.description != ""

/-- The pure core of `fetchProductsFromSheet`: map rows to records, then
drop fully-empty rows. -/
def productsOfRows (rows : List (List Cell)) : List ProductRecord :=
  (rows.map toRecord).filter rowKept

/-! ## Product cache (`getProducts`) -/

/-- The module-level cache `let productsCache = { data: null, ts: 0 }`:
`data` is `null` or the last successful fetch result, `ts` the epoch
milliseconds of that fetch. -/
structure CacheState where
  data : Option (List ProductRecord)
  ts : Int
  deriving DecidableEq

/-- What one call to `getProducts` does: the value returned to the caller,
the cache state after the call, and whether `fetchProductsFromSheet` was
invoked. -/
structure GetResult where
  ret : List ProductRecord
  st : CacheState
  fetched : Bool
  deriving DecidableEq

/-- `getProducts`: serve the cached data while it is present and fresh
(`productsCache.data && now - productsCache.ts < TTL`); otherwise attempt a
fetch, storing the result and the current time on success, and on failure
(`catch`) returning `productsCache.data || []` with the cache untouched.
The `fetch` argument stands for the outcome `fetchProductsFromSheet` would
have; the function is total — the `try/catch` swallows every fetch error. -/
def getProducts (st : CacheState) (now ttl : Int) (fetch : Except String (List ProductRecord)) :
    GetResult :=
  match st.data with
  | some d =>
      if now - st.ts < ttl then ⟨d, st, false⟩
      else
        match fetch with
        | .ok data => ⟨data, ⟨some data, now⟩, true⟩
        | .error _ => ⟨d, st, true⟩
  | none =>
      match fetch with
      | .ok data => ⟨data, ⟨some data, now⟩, true⟩
      | .error _ => ⟨[], st, true⟩

/-! ## Filesystem watcher callback -/

set_option linter.unusedVariables false in
/-- The `fs.watch` callback body: `if (filename) { ...; notifyClients(); }`.
`filename` is a string or `null`; the empty string is falsy.  The result is
the number of `notifyClients()` invocations this event produces.  The event
type is received but, as in the source, only logged. -/
def watchCallback (eventType : String) (filename : Option String) : Nat :=
  match filename with
  | some s => if s != "" then 1 else 0
  | none => 0

/-- Unused but part of the callback signature. -/
def watchEventTypes : List String := ["rename", "change"]

/-! ## Broadcast channel (`notifyClients`) -/

/-- The fixed signal emitted to every client (`io.emit("update")` /
`client.send("update")`). -/
def updateSignal : String := "update"

/-- One connected client: whether its `readyState` is `OPEN`, and whether a
send attempt to it succeeds. -/
structure Client where
  isOpen : Bool
  sendOk : Bool
  deriving DecidableEq

/-- Outcome of `notifyClients` for one client: the fixed signal was sent,
the send attempt failed (swallowed, not propagated), or the client was
skipped because it was not `OPEN`. -/
inductive SendOutcome where
  | sent (msg : String)
  | failed
  | skipped
  deriving DecidableEq

/-- What the loop body does to one client: an `OPEN` client gets exactly
one send attempt carrying the fixed signal; others are skipped. -/
def sendTo (c : Client) : SendOutcome :=
  if c.isOpen then (if c.sendOk then .sent updateSignal else .failed) else .skipped

/-- `notifyClients`: iterate the current client set in order, handling each
client independently of the others' outcomes. -/
def notifyClients : List Client → List SendOutcome
  | [] => []
  | c :: cs => sendTo c :: notifyClients cs

/-! ## Image listing (`GET /images`) -/

/-- One directory entry from `fs.promises.readdir(..., { withFileTypes:
true })`. -/
structure DirEntry where
  name : String
  isFile : Bool
  deriving DecidableEq

/-- The fixed extension allow-list of the regex
`/\.(jpg|jpeg|png|gif|webp|avif)$/i`. -/
def imageExts : List String := ["jpg", "jpeg", "png", "gif", "webp", "avif"]

/-- ASCII lowercasing, the case folding the `i` regex flag performs on the
ASCII-only pattern. -/
def lowerChar (c : Char) : Char :=
  if 'A' ≤ c && c ≤ 'Z' then Char.ofNat (c.toNat + 32) else c

/-- The regex test: the filename ends, case-insensitively, with a period
followed by one of the allowed extensions (`$` is end-of-input: the regex
has no multiline flag). -/
def extMatches (name : String) : Bool :=
  imageExts.any fun e => ("." ++ e).toList.isSuffixOf (name.toList.map lowerChar)

/-- The `/images` handler core: a missing directory (`!fs.existsSync`)
yields `[]`; otherwise keep regular files, take their names, and keep the
allow-listed extensions, in enumeration order. -/
def listImages : Option (List DirEntry) → List String
  | none => []
  | some es => ((es.filter (·.isFile)).map (·.name)).filter extMatches

/-! ## Image proxy (`GET /img/:id`) -/

/-- JS `\w`: ASCII letters, digits, underscore. -/
def isWordChar (c : Char) : Bool :=
  ('a' ≤ c && c ≤ 'z') || ('A' ≤ c && c ≤ 'Z') || c.isDigit || c == '_'

/-- The validation regex `^[\w-]{10,}$`: at least ten characters, each a
word character or a hyphen. -/
def idPattern (s : String) : Bool :=
  decide (10 ≤ s.length) && s.toList.all fun c => isWordChar c || c == '-'

/-- The upstream response the single outbound `fetch` would produce:
`r.ok`, and the `content-type` header when present. -/
structure Upstream where
  ok : Bool
  contentType : Option String
  deriving DecidableEq

/-- Result of the proxy handler: 400 `bad id`, 502 `upstream error`, or a
success carrying the response content type. -/
inductive ProxyResult where
  | badRequest
  | upstreamError
  | success (contentType : String)
  deriving DecidableEq

/-- JS `x || d` on a nullable string: `null` and `""` fall back to `d`. -/
def jsOrStr (o : Option String) (d : String) : String :=
  match o with
  | none => d
  | some s => if s == "" then d else s

/-- The `/img/:id` handler core: trim the id, reject anything failing the
pattern with 400 before any outbound call, otherwise perform the single
fetch — non-`ok` yields 502, success propagates the upstream content type
with `image/jpeg` as default.  The second component counts outbound
network calls. -/
def fetchRemoteImage (rawId : String) (up : Upstream) : ProxyResult × Nat :=
  let id := strTrim rawId
  if !idPattern id then (.badRequest, 0)
  else if !up.ok then (.upstreamError, 1)
  else (.success (jsOrStr up.contentType "image/jpeg"), 1)

/-! ## Supporting lemmas

The first group establishes that replacing only the first comma (what
`replace(",", ".")` does) and replacing every comma (one reading of the
spec's wording) produce the same `parseFloat` value: the parse never reads
past a second comma, whether or not it was turned into a period. -/

lemma takeWhile_append_cons_of_neg (p : Char → Bool) (c : Char) (h : p c = false)
    (l₁ l₂ : List Char) : (l₁ ++ c :: l₂).takeWhile p = l₁.takeWhile p := by
  induction l₁ with
  | nil => simp [List.takeWhile_cons, h]
  | cons x t ih =>
    simp only [List.cons_append, List.takeWhile_cons]
    cases hx : p x <;> simp [ih]

lemma dropWhile_append_cons_of_neg (p : Char → Bool) (c : Char) (h : p c = false)
    (l₁ l₂ : List Char) : (l₁ ++ c :: l₂).dropWhile p = l₁.dropWhile p ++ c :: l₂ := by
  induction l₁ with
  | nil => simp [List.dropWhile_cons, h]
  | cons x t ih =>
    simp only [List.cons_append, List.dropWhile_cons]
    cases hx : p x <;> simp [ih]

lemma isDigit_commaToDot (c : Char) : (commaToDot c).isDigit = c.isDigit := by
  unfold commaToDot
  by_cases h : c = ','
  · subst h; decide
  · simp [h]

lemma commaToDot_of_digit (c : Char) (h : c.isDigit = true) : commaToDot c = c := by
  unfold commaToDot
  by_cases hc : c = ','
  · subst hc; exact absurd h (by decide)
  · simp [hc]

lemma commaToDot_of_not_comma (c : Char) (h : c ≠ ',') : commaToDot c = c := by
  simp [commaToDot, h]

lemma map_commaToDot_of_not_mem (l : List Char) (h : ',' ∉ l) :
    l.map commaToDot = l := by
  induction l with
  | nil => rfl
  | cons x t ih =>
    simp only [List.mem_cons, not_or] at h
    simp [commaToDot_of_not_comma x (Ne.symm h.1), ih h.2]

lemma takeWhile_isDigit_map_commaToDot (l : List Char) :
    (l.map commaToDot).takeWhile Char.isDigit = l.takeWhile Char.isDigit := by
  induction l with
  | nil => rfl
  | cons x t ih =>
    simp only [List.map_cons, List.takeWhile_cons, isDigit_commaToDot]
    cases hx : x.isDigit
    · simp
    · simp [commaToDot_of_digit x hx, ih]

lemma intPart_append_dot (b u : List Char) : intPart (b ++ '.' :: u) = intPart b :=
  takeWhile_append_cons_of_neg _ _ (by decide) b u

lemma fracPart_append_dot_congr (b u v : List Char)
    (h : u.takeWhile Char.isDigit = v.takeWhile Char.isDigit) :
    fracPart (b ++ '.' :: u) = fracPart (b ++ '.' :: v) := by
  unfold fracPart
  rw [dropWhile_append_cons_of_neg _ _ (by decide),
    dropWhile_append_cons_of_neg _ _ (by decide)]
  cases hb : b.dropWhile Char.isDigit with
  | nil => simpa using h
  | cons d t =>
    by_cases hd : d = '.'
    · subst hd
      simp [takeWhile_append_cons_of_neg _ _ (by decide : ('.' : Char).isDigit = false)]
    · simp [hd]

lemma parseDec_append_dot_congr (b u v : List Char)
    (h : u.takeWhile Char.isDigit = v.takeWhile Char.isDigit) :
    parseDec (b ++ '.' :: u) = parseDec (b ++ '.' :: v) := by
  unfold parseDec
  rw [intPart_append_dot, intPart_append_dot, fracPart_append_dot_congr b u v h]

lemma parseFloatQ_append_dot_congr (a u v : List Char)
    (h : u.takeWhile Char.isDigit = v.takeWhile Char.isDigit) :
    parseFloatQ (a ++ '.' :: u) = parseFloatQ (a ++ '.' :: v) := by
  unfold parseFloatQ
  cases a with
  | nil =>
    have h1 : parseDec ('.' :: u) = parseDec ('.' :: v) :=
      parseDec_append_dot_congr [] u v h
    simp only [List.nil_append, List.head?_cons]
    rw [if_neg (by decide : ¬ (some '.' = some ('-' : Char))),
      if_neg (by decide : ¬ (some '.' = some ('-' : Char))), h1]
  | cons c a' =>
    simp only [List.cons_append, List.head?_cons, List.tail_cons]
    by_cases hc : c = '-'
    · subst hc
      simp [parseDec_append_dot_congr a' u v h]
    · have h2 : parseDec (c :: (a' ++ '.' :: u)) = parseDec (c :: (a' ++ '.' :: v)) :=
        parseDec_append_dot_congr (c :: a') u v h
      rw [if_neg (by simp [hc]), if_neg (by simp [hc]), h2]

/-- Splitting a character list at its first comma. -/
lemma exists_first_comma_split (l : List Char) :
    ',' ∉ l ∨ ∃ l₁ l₂, l = l₁ ++ ',' :: l₂ ∧ ',' ∉ l₁ := by
  induction l with
  | nil => exact Or.inl (by simp)
  | cons x t ih =>
    by_cases hx : x = ','
    · subst hx
      exact Or.inr ⟨[], t, by simp⟩
    · rcases ih with h | ⟨l₁, l₂, rfl, hl₁⟩
      · exact Or.inl (by simp [Ne.symm hx, h])
      · exact Or.inr ⟨x :: l₁, l₂, by simp, by simp [Ne.symm hx, hl₁]⟩

lemma replaceFirstComma_of_not_mem (l : List Char) (h : ',' ∉ l) :
    replaceFirstComma l = l := by
  induction l with
  | nil => rfl
  | cons x t ih =>
    simp only [List.mem_cons, not_or] at h
    simp only [replaceFirstComma]
    rw [if_neg (by simpa using Ne.symm h.1), ih h.2]

lemma replaceFirstComma_append (l₁ l₂ : List Char) (h : ',' ∉ l₁) :
    replaceFirstComma (l₁ ++ ',' :: l₂) = l₁ ++ '.' :: l₂ := by
  induction l₁ with
  | nil => simp [replaceFirstComma]
  | cons x t ih =>
    simp only [List.mem_cons, not_or] at h
    simp only [List.cons_append, replaceFirstComma]
    rw [if_neg (by simpa using Ne.symm h.1)]
    exact congrArg (x :: ·) (ih h.2)

/-- The source's first-occurrence comma replacement and a replace-every-
comma variant parse to the same float: `parseFloat` never reads past the
position of the second comma. -/
lemma parseFloatQ_replaceFirst_eq_replaceAll (l : List Char) :
    parseFloatQ (replaceFirstComma l) = parseFloatQ (replaceAllCommas l) := by
  rcases exists_first_comma_split l with h | ⟨l₁, l₂, rfl, hl₁⟩
  · rw [replaceFirstComma_of_not_mem l h,
      show replaceAllCommas l = l from map_commaToDot_of_not_mem l h]
  · rw [replaceFirstComma_append l₁ l₂ hl₁]
    have hall : replaceAllCommas (l₁ ++ ',' :: l₂) = l₁ ++ '.' :: (l₂.map commaToDot) := by
      unfold replaceAllCommas
      rw [List.map_append, map_commaToDot_of_not_mem l₁ hl₁]
      simp [commaToDot]
    rw [hall]
    exact parseFloatQ_append_dot_congr l₁ l₂ (l₂.map commaToDot)
      (takeWhile_isDigit_map_commaToDot l₂).symm

/-! The next group relates the source's `trim()`-then-strip cleaning to the
spec's strip-only description, and establishes sign facts about the parse. -/

lemma isPriceChar_eq_false_of_isWs (c : Char) (h : isWs c = true) :
    isPriceChar c = false := by
  unfold isWs at h
  simp only [Bool.or_eq_true, beq_iff_eq] at h
  rcases h with ((h | h) | h) | h <;> subst h <;> decide

lemma filter_dropWhile_isWs (l : List Char) :
    (l.dropWhile isWs).filter isPriceChar = l.filter isPriceChar := by
  induction l with
  | nil => rfl
  | cons x t ih =>
    cases hx : isWs x with
    | false => simp [List.dropWhile_cons, hx]
    | true =>
      have hp : isPriceChar x = false := isPriceChar_eq_false_of_isWs x hx
      simp [List.dropWhile_cons, hx, List.filter_cons, hp, ih]

lemma filter_isPriceChar_jsTrim (l : List Char) :
    (jsTrim l).filter isPriceChar = l.filter isPriceChar := by
  unfold jsTrim
  rw [List.filter_reverse, filter_dropWhile_isWs, List.filter_reverse,
    filter_dropWhile_isWs, List.reverse_reverse]

lemma mem_of_mem_jsTrim (c : Char) (l : List Char) (h : c ∈ jsTrim l) : c ∈ l := by
  unfold jsTrim at h
  rw [List.mem_reverse] at h
  have h1 := (List.dropWhile_sublist (l := (l.dropWhile isWs).reverse) isWs).subset h
  rw [List.mem_reverse] at h1
  exact (List.dropWhile_sublist isWs).subset h1

lemma mem_of_mem_replaceFirstComma (c : Char) (l : List Char)
    (h : c ∈ replaceFirstComma l) : c = '.' ∨ c ∈ l := by
  induction l with
  | nil => exact absurd h (List.not_mem_nil c)
  | cons x t ih =>
    simp only [replaceFirstComma] at h
    by_cases hx : x = ','
    · rw [if_pos (by simpa using hx)] at h
      rcases List.mem_cons.mp h with h | h
      · exact Or.inl h
      · exact Or.inr (List.mem_cons_of_mem x h)
    · rw [if_neg (by simpa using hx)] at h
      rcases List.mem_cons.mp h with h | h
      · exact Or.inr (h ▸ List.mem_cons_self x t)
      · rcases ih h with h | h
        · exact Or.inl h
        · exact Or.inr (List.mem_cons_of_mem x h)

lemma not_minus_mem_cleanedPrice (s : String) (h : '-' ∉ s.toList) :
    '-' ∉ cleanedPrice s := by
  intro hmem
  rcases mem_of_mem_replaceFirstComma _ _ hmem with h1 | h1
  · exact absurd h1 (by decide)
  · exact h (mem_of_mem_jsTrim _ _ (List.mem_filter.mp h1).1)

lemma parseFloatQ_nonneg (cs : List Char) (h : '-' ∉ cs) (q : Rat)
    (hq : parseFloatQ cs = some q) : 0 ≤ q := by
  unfold parseFloatQ at hq
  have hhead : cs.head? ≠ some '-' := by
    cases cs with
    | nil => simp
    | cons x t =>
      simp only [List.head?_cons, ne_eq, Option.some.injEq]
      intro hx
      exact h (hx ▸ List.mem_cons_self x t)
  rw [if_neg hhead] at hq
  cases hd : parseDec cs with
  | none => rw [hd] at hq; simp at hq
  | some p =>
    rw [hd] at hq
    simp only [Option.map_some', Option.some.injEq] at hq
    exact hq ▸ Rat.mkRat_nonneg (Int.natCast_nonneg p.1) p.2

lemma jsOr0_nonneg (o : Option Rat) (h : ∀ q, o = some q → 0 ≤ q) :
    0 ≤ jsOr0 o := by
  cases o with
  | none => exact le_refl 0
  | some v =>
    unfold jsOr0
    by_cases hv : v = 0
    · simp [hv]
    · simpa [hv] using h v rfl

lemma rowKept_iff_not_all_empty (p : ProductRecord) :
    rowKept p = !(p.name == "" && p.image == "" && p.description == "") := by
  unfold rowKept
  cases h1 : p.name == "" <;> cases h2 : p.image == "" <;>
    cases h3 : p.description == "" <;> simp [bne, h1, h2, h3]

/-! ## Claim theorems -/

/-- Claim C1: whenever the fetch attempted by `getProducts` fails, the call
returns the previously stored data (the empty sequence when no prior
success exists), leaves the cached data and timestamp unchanged, and — by
the totality of `getProducts`, which models the `try/catch` swallowing
every fetch error — raises nothing to its caller. -/
theorem claim_C1 (st : CacheState) (now ttl : Int) (e : String) :
    (getProducts st now ttl (.error e)).st = st ∧
    (∀ d, st.data = some d → (getProducts st now ttl (.error e)).ret = d) ∧
    (st.data = none → (getProducts st now ttl (.error e)).ret = []) := by
  obtain ⟨data, ts⟩ := st
  cases data with
  | none => simp [getProducts]
  | some d =>
    by_cases hf : now - ts < ttl <;> simp [getProducts, hf]

/-- Witness for C1 at a concrete expired cache whose refresh fails: the
stored record list comes back and the cache is untouched. -/
theorem claim_C1_witness :
    (getProducts ⟨some [⟨"i", "n", 1, "d"⟩], 0⟩ 500 100 (.error "boom")).st =
      ⟨some [⟨"i", "n", 1, "d"⟩], 0⟩ ∧
    (getProducts ⟨some [⟨"i", "n", 1, "d"⟩], 0⟩ 500 100 (.error "boom")).ret =
      [⟨"i", "n", 1, "d"⟩] :=
  ⟨(claim_C1 ⟨some [⟨"i", "n", 1, "d"⟩], 0⟩ 500 100 "boom").1,
    (claim_C1 ⟨some [⟨"i", "n", 1, "d"⟩], 0⟩ 500 100 "boom").2.1 _ rfl⟩

/-- Claim C2: with a prior successful result stored and
`now - fetchedAtMs < TTL`, `getProducts` returns exactly the stored
sequence, leaves the state unchanged, and does not invoke the Spreadsheet
Reader (`fetched = false`), whatever the reader would have produced. -/
theorem claim_C2 (st : CacheState) (now ttl : Int) (d : List ProductRecord)
    (fetch : Except String (List ProductRecord))
    (hd : st.data = some d) (hfresh : now - st.ts < ttl) :
    getProducts st now ttl fetch = ⟨d, st, false⟩ := by
  unfold getProducts
  rw [hd]
  simp [hfresh]

/-- Witness for C2 at a concrete fresh cache. -/
theorem claim_C2_witness :
    getProducts ⟨some [⟨"i", "n", 1, "d"⟩], 0⟩ 50 100 (.error "down") =
      ⟨[⟨"i", "n", 1, "d"⟩], ⟨some [⟨"i", "n", 1, "d"⟩], 0⟩, false⟩ :=
  claim_C2 ⟨some [⟨"i", "n", 1, "d"⟩], 0⟩ 50 100 [⟨"i", "n", 1, "d"⟩]
    (.error "down") rfl (by decide)

/-- Claim C3: a numeric price cell is used as-is; a string cell is handled
exactly as the spec words it — strip every character that is not a digit,
comma, period, or minus sign, replace comma with period (the first-
occurrence `replace` of the source provably parses to the same value as
replacing every comma), parse as float, with unparsable input yielding 0;
`" $5,50 "` parses to `5.50` (`mkRat 550 100`) and `"abc"` to 0. -/
theorem claim_C3 :
    (∀ q : Rat, priceOfCell (.num q) = q) ∧
    (∀ s : String, priceOfCell (.str s) = specPriceString s) ∧
    priceOfCell (.str " $5,50 ") = mkRat 550 100 ∧
    priceOfCell (.str "abc") = 0 := by
  refine ⟨fun q => rfl, fun s => ?_, by decide, by decide⟩
  show jsOr0 (parseFloatQ (cleanedPrice s)) = specPriceString s
  unfold specPriceString cleanedPrice
  rw [filter_isPriceChar_jsTrim, parseFloatQ_replaceFirst_eq_replaceAll]

/-- Claim C4 counterexample: a raw watch event that carries no filename
(`fs.watch` can invoke the callback with `filename = null`) produces NO
broadcast — the callback body is guarded by `if (filename)` — refuting
"invokes the broadcast callback exactly once" for every raw event. -/
theorem claim_C4_counterexample :
    watchCallback "rename" none = 0 ∧ watchCallback "rename" none ≠ 1 := by
  decide

/-- Claim C4 as amended: each raw event carrying a non-empty filename
produces exactly one broadcast; events with no filename (or an empty one,
also falsy) produce none. -/
theorem claim_C4_amended (eventType : String) :
    (∀ s : String, s ≠ "" → watchCallback eventType (some s) = 1) ∧
    watchCallback eventType none = 0 ∧
    watchCallback eventType (some "") = 0 := by
  refine ⟨fun s hs => ?_, rfl, rfl⟩
  simp [watchCallback, hs]

/-- Witness for the amended C4 at a concrete change event. -/
theorem claim_C4_witness :
    watchCallback "change" (some "a.png") = 1 ∧ watchCallback "change" none = 0 :=
  ⟨(claim_C4_amended "change").1 "a.png" (by decide), (claim_C4_amended "change").2.1⟩

/-- Claim C5: one `notifyClients()` run handles every client of the current
set exactly once, in order; the outcome for each client is computed
independently — in particular a failing send in the middle leaves the
outcomes of all preceding and following clients untouched — every `OPEN`
client gets exactly one send attempt carrying the fixed `"update"` signal,
and non-open clients are skipped; the iteration itself never fails. -/
theorem claim_C5 (cs₁ : List Client) (c : Client) (cs₂ : List Client) :
    notifyClients (cs₁ ++ c :: cs₂) =
      notifyClients cs₁ ++ sendTo c :: notifyClients cs₂ ∧
    (notifyClients (cs₁ ++ c :: cs₂)).length = cs₁.length + 1 + cs₂.length ∧
    (c.isOpen = true →
      sendTo c = (if c.sendOk then .sent updateSignal else .failed)) ∧
    (c.isOpen = false → sendTo c = .skipped) := by
  have hlen : ∀ l : List Client, (notifyClients l).length = l.length := by
    intro l
    induction l with
    | nil => rfl
    | cons x t ih => simp [notifyClients, ih]
  have hsplit : notifyClients (cs₁ ++ c :: cs₂) =
      notifyClients cs₁ ++ sendTo c :: notifyClients cs₂ := by
    induction cs₁ with
    | nil => rfl
    | cons x t ih => simp [notifyClients, ih]
  refine ⟨hsplit, ?_, fun h => by simp [sendTo, h], fun h => by simp [sendTo, h]⟩
  rw [hlen]
  simp [List.length_append]
  omega

/-- Witness for C5: three connected clients, the middle send failing — each
gets exactly one outcome and both neighbours still receive the signal. -/
theorem claim_C5_witness :
    notifyClients [⟨true, true⟩, ⟨true, false⟩, ⟨true, true⟩] =
      [.sent updateSignal, .failed, .sent updateSignal] :=
  (claim_C5 [⟨true, true⟩] ⟨true, false⟩ [⟨true, true⟩]).1.trans (by decide)

/-- Claim C6: mapped rows are dropped exactly when image, name and
description are all empty after normalization (the record fields are the
trimmed values), and every surviving record has at least one of the three
non-empty; order and everything else is preserved (the output is literally
the mapped list filtered by that one predicate). -/
theorem claim_C6 (rows : List (List Cell)) :
    productsOfRows rows =
      (rows.map toRecord).filter
        (fun p => !(p.name == "" && p.image == "" && p.description == "")) ∧
    (∀ p ∈ productsOfRows rows,
      p.name ≠ "" ∨ p.image ≠ "" ∨ p.description ≠ "") := by
  constructor
  · unfold productsOfRows
    exact List.filter_congr fun p _ => rowKept_iff_not_all_empty p
  · intro p hp
    have hk := (List.mem_filter.mp hp).2
    simp only [rowKept, Bool.or_eq_true, bne_iff_ne, ne_eq] at hk
    tauto

/-- Witness for C6: a row that is empty after trimming (whitespace name,
empty strings, null price) is dropped; a surviving row keeps its place and
satisfies the invariant. -/
theorem claim_C6_witness :
    productsOfRows
        [[Cell.str " x ", Cell.str "", Cell.str "5,5", Cell.str ""],
          [Cell.str " ", Cell.str "", Cell.null, Cell.str ""]] =
      [⟨"x", "", mkRat 55 10, ""⟩] ∧
    (("" : String) ≠ "" ∨ ("x" : String) ≠ "" ∨ ("" : String) ≠ "") :=
  ⟨(claim_C6 [[Cell.str " x ", Cell.str "", Cell.str "5,5", Cell.str ""],
      [Cell.str " ", Cell.str "", Cell.null, Cell.str ""]]).1.trans (by decide),
    by
      have h := (claim_C6 [[Cell.str " x ", Cell.str "", Cell.str "5,5", Cell.str ""],
        [Cell.str " ", Cell.str "", Cell.null, Cell.str ""]]).2
        ⟨"x", "", mkRat 55 10, ""⟩ (by decide)
      exact h⟩

/-- Claim C7 counterexample: the cleaning step keeps the minus sign, so the
string `"-5"` parses to the negative price `-5`, refuting "the parsed price
field is a non-negative number" for every price string. -/
theorem claim_C7_counterexample :
    priceOfCell (.str "-5") = -5 ∧ ¬ (0 ≤ priceOfCell (.str "-5")) := by
  decide

/-- Claim C7 as amended: a string price always yields a well-defined
rational, 0 when unparsable; it is non-negative whenever the raw string
contains no minus sign (currency symbols and comma separators included) —
but a minus sign survives cleaning, so such strings can parse negative. -/
theorem claim_C7_amended (s : String) :
    (parseFloatQ (cleanedPrice s) = none → priceOfCell (.str s) = 0) ∧
    ('-' ∉ s.toList → 0 ≤ priceOfCell (.str s)) := by
  constructor
  · intro h
    simp [priceOfCell, h, jsOr0]
  · intro h
    unfold priceOfCell
    exact jsOr0_nonneg _ fun q hq =>
      parseFloatQ_nonneg _ (not_minus_mem_cleanedPrice s h) q hq

/-- Witness for the amended C7: `"abc"` falls back to 0 and the minus-free
`" $5,50 "` parses non-negative. -/
theorem claim_C7_witness :
    priceOfCell (.str "abc") = 0 ∧ (0 : Rat) ≤ priceOfCell (.str " $5,50 ") :=
  ⟨(claim_C7_amended "abc").1 (by decide),
    (claim_C7_amended " $5,50 ").2 (by decide)⟩

/-- Claim C8: a missing directory yields `[]` instead of failing; for an
existing one the result holds exactly the names of the regular files whose
extension matches the fixed allow-list case-insensitively, in enumeration
order (the output is a sublist of the entry names); the directory with
`a.png`, `b.txt`, `C.JPG` yields `["a.png", "C.JPG"]`. -/
theorem claim_C8 :
    listImages none = [] ∧
    (∀ (es : List DirEntry) (x : String),
      x ∈ listImages (some es) ↔
        ∃ d, d ∈ es ∧ d.isFile = true ∧ extMatches d.name = true ∧ d.name = x) ∧
    (∀ es : List DirEntry, (listImages (some es)).Sublist (es.map DirEntry.name)) ∧
    listImages (some [⟨"a.png", true⟩, ⟨"b.txt", true⟩, ⟨"C.JPG", true⟩]) =
      ["a.png", "C.JPG"] := by
  refine ⟨rfl, ?_, ?_, by decide⟩
  · intro es x
    simp only [listImages, List.mem_filter, List.mem_map]
    constructor
    · rintro ⟨⟨d, ⟨hd, hf⟩, rfl⟩, hm⟩
      exact ⟨d, hd, hf, hm, rfl⟩
    · rintro ⟨d, hd, hf, hm, rfl⟩
      exact ⟨⟨d, ⟨hd, hf⟩, rfl⟩, hm⟩
  · intro es
    exact (List.filter_sublist _).trans ((List.filter_sublist es).map DirEntry.name)

/-- Witness for C8: the first matching entry is in the listing. -/
theorem claim_C8_witness :
    "a.png" ∈ listImages (some [⟨"a.png", true⟩, ⟨"b.txt", true⟩, ⟨"C.JPG", true⟩]) :=
  (claim_C8.2.1 [⟨"a.png", true⟩, ⟨"b.txt", true⟩, ⟨"C.JPG", true⟩] "a.png").mpr
    ⟨⟨"a.png", true⟩, by decide, rfl, by decide, rfl⟩

/-- Claim C9 counterexample: the handler trims the id before validating, so
the raw input `" abcdefghij "` — which does NOT match `^[\w-]{10,}$`
(it contains spaces) — is not rejected: the outbound fetch happens (one
network call) and the request succeeds, refuting "if id does not match the
restrictive pattern the operation fails with BadRequestError before any
outbound network call". -/
theorem claim_C9_counterexample :
    idPattern " abcdefghij " = false ∧
    fetchRemoteImage " abcdefghij " ⟨true, none⟩ = (.success "image/jpeg", 1) := by
  decide

/-- Claim C9 as amended: validation applies to the whitespace-trimmed id —
a trimmed id failing the pattern yields `badRequest` with zero outbound
calls; a valid trimmed id triggers exactly one outbound fetch, whose
non-success yields `upstreamError` and whose success carries the upstream
content type, defaulting to `image/jpeg` when absent (or empty). -/
theorem claim_C9_amended (rawId : String) (up : Upstream) :
    (idPattern (strTrim rawId) = false → fetchRemoteImage rawId up = (.badRequest, 0)) ∧
    (idPattern (strTrim rawId) = true → up.ok = false →
      fetchRemoteImage rawId up = (.upstreamError, 1)) ∧
    (idPattern (strTrim rawId) = true → up.ok = true →
      fetchRemoteImage rawId up = (.success (jsOrStr up.contentType "image/jpeg"), 1)) := by
  refine ⟨fun h => by simp [fetchRemoteImage, h],
    fun h hok => by simp [fetchRemoteImage, h, hok],
    fun h hok => by simp [fetchRemoteImage, h, hok]⟩

/-- Witness for the amended C9: the spec's own example `"bad id!"` fails
with 400 and no network call; a valid id with a failing upstream gives 502
after exactly one call. -/
theorem claim_C9_witness :
    fetchRemoteImage "bad id!" ⟨true, none⟩ = (.badRequest, 0) ∧
    fetchRemoteImage "abcdefghij" ⟨false, none⟩ = (.upstreamError, 1) :=
  ⟨(claim_C9_amended "bad id!" ⟨true, none⟩).1 (by decide),
    (claim_C9_amended "abcdefghij" ⟨false, none⟩).2.1 (by decide) rfl⟩

/-- Claim C10: `replace(",", ".")` replaces only the first comma — in
general, the first comma of the cleaned string becomes a period and every
later character (commas included) is untouched; concretely the cleaned
form of `"1,234,56"` is `"1.234,56"` (not the replace-all `"1.234.56"`),
and it parses to `1.234` (`mkRat 1234 1000`). -/
theorem claim_C10 :
    cleanedPrice "1,234,56" = "1.234,56".toList ∧
    "1.234,56".toList ≠ "1.234.56".toList ∧
    priceOfCell (.str "1,234,56") = mkRat 1234 1000 ∧
    (∀ l₁ l₂ : List Char, ',' ∉ l₁ →
      replaceFirstComma (l₁ ++ ',' :: l₂) = l₁ ++ '.' :: l₂) :=
  ⟨by decide, by decide, by decide, replaceFirstComma_append⟩

/-- Witness for C10: the general first-comma equation at a concrete split. -/
theorem claim_C10_witness :
    replaceFirstComma (['1'] ++ ',' :: ['2', ',', '3']) = ['1'] ++ '.' :: ['2', ',', '3'] :=
  claim_C10.2.2.2 ['1'] ['2', ',', '3'] (by decide)

end PremiumCoffee
